import Mathlib

/-!
Verification development for the capture/dispatch core of the ustreamer fork
(src/v4p/drm.c, src/ustreamer/stream.c).  The C functions are shallowly
embedded as executable Lean definitions; machine integers stay inside the
ranges where Nat/Int model them exactly, monotonic timestamps are rationals,
and fallible paths return Option.
-/

/-! ## DRM constants (drm.h, videodev2.h, drm_fourcc.h) -/

/-- Enum us_drm_stub_e (drm.h line 35): US_DRM_STUB_USER = 1. -/
def US_DRM_STUB_USER : Nat := 1

/-- Enum us_drm_stub_e (drm.h line 36): US_DRM_STUB_BAD_RESOLUTION = 2. -/
def US_DRM_STUB_BAD_RESOLUTION : Nat := 2

/-- Enum us_drm_stub_e (drm.h line 37): US_DRM_STUB_BAD_FORMAT = 3. -/
def US_DRM_STUB_BAD_FORMAT : Nat := 3

/-- The fourcc V4L2_PIX_FMT_RGB24, little-endian packing of R G B 3. -/
def V4L2_PIX_FMT_RGB24 : Nat := 0x33424752

/-! ## drmModeModeInfo slice used by drm.c -/

/-- The fields of drmModeModeInfo read by drm.c; the INTERLACE and DBLSCAN
flags and the PREFERRED type bit are carried as booleans. -/
structure DrmModeInfo where
  hdisplay : Nat
  vdisplay : Nat
  clock : Nat
  htotal : Nat
  vtotal : Nat
  vscan : Nat
  interlace : Bool
  dblscan : Bool
  preferred : Bool
  deriving DecidableEq

/-- Embeds _get_refresh_rate (drm.c lines 725-737).  The C computation is
integral (int mhz, truncating division on nonnegative values) until the final
division by 1000, which we take exactly in the rationals. -/
def getRefreshRate (mode : DrmModeInfo) : Rat :=
  let mhz : Nat := (mode.clock * 1000000 / mode.htotal + mode.vtotal / 2) / mode.vtotal
  let mhz : Nat := if mode.interlace then mhz * 2 else mhz
  let mhz : Nat := if mode.dblscan then mhz / 2 else mhz
  let mhz : Nat := if mode.vscan > 1 then mhz / mode.vscan else mhz
  (mhz : Rat) / 1000

/-! ## Stub determination in us_drm_open (drm.c lines 112-152) -/

/-- The capture-device run fields read by us_drm_open. -/
structure DeviceRun where
  format : Nat
  width : Nat
  height : Nat
  hz : Nat
  deriving DecidableEq

/-- Embeds the stub determination of us_drm_open (drm.c lines 112-152) on the
success path: dev == NULL gives US_DRM_STUB_USER, a non-RGB24 format gives
US_DRM_STUB_BAD_FORMAT, and a still-zero stub is forced to
US_DRM_STUB_BAD_RESOLUTION when width differs from mode.hdisplay or height is
strictly below mode.vdisplay (line 148).  The returned value is what the
successful us_drm_open returns (line 169). -/
def usDrmOpenStub (dev : Option DeviceRun) (mode : DrmModeInfo) : Nat :=
  let stub : Nat :=
    match dev with
    | none => US_DRM_STUB_USER
    | some d => if d.format ≠ V4L2_PIX_FMT_RGB24 then US_DRM_STUB_BAD_FORMAT else 0
  let width : Nat := if stub > 0 then 0 else (dev.map DeviceRun.width).getD 0
  let height : Nat := if stub > 0 then 0 else (dev.map DeviceRun.height).getD 0
  if stub = 0 ∧ (width ≠ mode.hdisplay ∨ height < mode.vdisplay) then
    US_DRM_STUB_BAD_RESOLUTION
  else stub

/-! ## Display status check (_drm_check_status, drm.c lines 408-446) -/

/-- Embeds the byte dispatch of _drm_check_status (drm.c line 441): the status
file byte yields -2 (disconnected) exactly when it is the character d, and 0
(connected) for every other byte. -/
def drmCheckStatusByte (statusCh : Char) : Int :=
  if statusCh = 'd' then -2 else 0

/-- The public DRM operations that begin with a _drm_check_status switch. -/
inductive DrmOp
  | openOp
  | dpmsPowerOff
  | waitForVsync
  | exposeStub
  | exposeDma
  deriving DecidableEq

/-- Embeds the head switch of each public DRM operation on the result of
_drm_check_status (drm.c lines 98-102, 245-252, 262-266, 317-321, 386-390):
none means fall through into the body, some r means return r early. -/
def drmOpStatusDispatch : DrmOp → Int → Option Int
  | .openOp, s => if s = 0 then none else if s = -2 then some (-2) else some (-1)
  | .dpmsPowerOff, s => if s = 0 then none else if s = -2 then some 0 else some (-1)
  | .waitForVsync, s => if s = 0 then none else if s = -2 then some (-2) else some (-1)
  | .exposeStub, s => if s = 0 then none else if s = -2 then some (-2) else some (-1)
  | .exposeDma, s => if s = 0 then none else if s = -2 then some (-2) else some (-1)

/-- The value each public DRM operation returns when the display is
disconnected: -2 everywhere except us_drm_dpms_power_off, which treats an
unplugged display as success (drm.c line 247). -/
def drmOpUnpluggedReturn : DrmOp → Int
  | .dpmsPowerOff => 0
  | _ => -2

/-! ## The unplugged_reported latch (us_drm_open / us_drm_close) -/

/-- The outcome class of one us_drm_open attempt: ok is the success path,
unplugged is any goto unplugged (status byte d or _drm_find_sink -2), fail is
any goto error. -/
inductive DrmOpenInput
  | ok
  | unplugged
  | fail
  deriving DecidableEq

/-- The part of the DRM runtime that carries the one-shot unplugged log. -/
structure DrmLatchState where
  unpluggedReported : Bool
  deriving DecidableEq

/-- Embeds the effect of us_drm_close (drm.c lines 184-241) on the latch: the
function resets crtc_id, dpms_state, has_vsync and stub_n_buf but never
touches unplugged_reported. -/
def usDrmCloseLatch (st : DrmLatchState) : DrmLatchState := st

/-- Embeds the latch behaviour of us_drm_open (drm.c lines 93-182): the
success path clears unplugged_reported (line 167); the unplugged path logs
exactly when the latch was clear, sets it (lines 176-179), and runs
us_drm_close before returning -2 (lines 180-181); the error path runs
us_drm_close and returns -1.  Result: (new state, return value, logged). -/
def usDrmOpenLatch : DrmLatchState → DrmOpenInput → DrmLatchState × Int × Bool
  | st, .ok => ({ st with unpluggedReported := false }, 0, false)
  | st, .unplugged =>
      let logged := !st.unpluggedReported
      (usDrmCloseLatch { st with unpluggedReported := true }, -2, logged)
  | st, .fail => (usDrmCloseLatch st, -1, false)

/-- Folds a sequence of us_drm_open attempts, counting how many logged the
unplugged condition. -/
def usDrmOpenRun : DrmLatchState → List DrmOpenInput → DrmLatchState × Nat
  | st, [] => (st, 0)
  | st, i :: is =>
      let r := usDrmOpenLatch st i
      let rest := usDrmOpenRun r.1 is
      (rest.1, (if r.2.2 then 1 else 0) + rest.2)

/-! ## The exposing_dma_fd / has_vsync protocol (drm.c) -/

/-- The page-flip slice of the DRM runtime (drm.h lines 67-68). -/
structure DrmVsyncState where
  exposingDmaFd : Int
  hasVsync : Bool
  deriving DecidableEq

/-- State set by us_drm_init (drm.c lines 73-74): has_vsync true,
exposing_dma_fd -1. -/
def drmVsyncInit : DrmVsyncState := ⟨-1, true⟩

/-- The externally visible events of the page-flip protocol. -/
inductive DrmEvent
  | openOk
  | exposeDma (fd : Nat)
  | exposeStubEv
  | vsync
  | closeEv
  deriving DecidableEq

/-- Embeds each event's effect on the page-flip slice: a successful
us_drm_open resets exposing_dma_fd to -1 (drm.c line 166); us_drm_expose_dma
clears has_vsync and records the dma fd (lines 393, 404); us_drm_expose_stub
clears has_vsync (line 360); _drm_vsync_callback sets has_vsync and resets
exposing_dma_fd to -1 (lines 306-307); us_drm_close ends with
exposing_dma_fd = -1 (lines 187-193) and has_vsync = true (line 235). -/
def drmVsyncStep (st : DrmVsyncState) : DrmEvent → DrmVsyncState
  | .openOk => ⟨-1, st.hasVsync⟩
  | .exposeDma fd => ⟨(fd : Int), false⟩
  | .exposeStubEv => ⟨st.exposingDmaFd, false⟩
  | .vsync => ⟨-1, true⟩
  | .closeEv => ⟨-1, true⟩

/-- Runs a list of page-flip events from a state. -/
def drmVsyncRun (st : DrmVsyncState) : List DrmEvent → DrmVsyncState
  | [] => st
  | e :: es => drmVsyncRun (drmVsyncStep st e) es

/-- The dma fd of the pending DMA expose: some fd after an exposeDma with no
vsync, close or fresh open since, none otherwise. -/
def drmPendingDma (p : Option Nat) : List DrmEvent → Option Nat
  | [] => p
  | .openOk :: es => drmPendingDma none es
  | .exposeDma fd :: es => drmPendingDma (some fd) es
  | .exposeStubEv :: es => drmPendingDma p es
  | .vsync :: es => drmPendingDma none es
  | .closeEv :: es => drmPendingDma none es

/-- Reads a pending-dma marker as the exposing_dma_fd field value. -/
def drmPendingFdVal : Option Nat → Int
  | some fd => (fd : Int)
  | none => -1

/-! ## The stream loop's frame exposure (_stream_expose_frame, stream.c) -/

/-- The source a ring publish copies from: the frame passed to
_stream_expose_frame, or the blank JPEG run->blank->jpeg. -/
inductive PubSrc
  | live
  | blank
  deriving DecidableEq

/-- What one _stream_expose_frame call does to its acquired JPEG-ring slot:
skipped models the early return when the retry loop is broken by stop
(stream.c lines 402-404); dead is used = 0, online = false (lines 408-409);
copy is us_frame_copy plus online = true (lines 411-412). -/
inductive RingWrite
  | skipped
  | dead
  | copy (src : PubSrc)
  deriving DecidableEq

/-- The ring-slot frame fields written by the publish step. -/
structure RingFrame where
  used : Nat
  online : Bool
  payload : List Nat
  deriving DecidableEq

/-- Applies a RingWrite to a slot, given the byte payloads of the live frame
and of the blank JPEG: us_frame_copy replaces the payload, dead only clears
used and online, leaving the old payload bytes in place. -/
def applyRingWrite (liveBytes blankBytes : List Nat) (dest : RingFrame) :
    RingWrite → RingFrame
  | .skipped => dest
  | .dead => { dest with used := 0, online := false }
  | .copy .live => ⟨liveBytes.length, true, liveBytes⟩
  | .copy .blank => ⟨blankBytes.length, true, blankBytes⟩

/-- The blank-fallback slice of the stream runtime (stream.h): last_online and
last_as_blank_ts (0 means the timer is inactive). -/
structure ExposeState where
  lastOnline : Bool
  lastAsBlankTs : Rat
  deriving DecidableEq

/-- The observable output of one _stream_expose_frame call. -/
structure ExposeOut where
  ringWrite : RingWrite
  jpegSinkPut : Option PubSrc
  deriving DecidableEq

/-- Embeds the frame-selection part of _stream_expose_frame (stream.c lines
361-393): picks what will be copied into the ring slot (some src) or that the
slot becomes a dead frame (none), together with the new last_as_blank_ts.  A
non-NULL frame selects itself and stops the timer (lines 363-366); on the
online-to-offline transition a negative last_as_blank selects the blank, a
positive one arms the timer at now1 + last_as_blank, zero keeps the timer
state (lines 369-378); when already offline a negative last_as_blank selects
the blank again (lines 379-382); finally an armed, expired timer selects the
blank and disarms (lines 384-392, now2 being the second monotonic read). -/
def exposeSelect (lastAsBlank : Int) (st : ExposeState) (frameAlive : Bool)
    (now1 now2 : Rat) : Option PubSrc × Rat :=
  if frameAlive then (some .live, 0)
  else
    let armed : Option PubSrc × Rat :=
      if st.lastOnline then
        if lastAsBlank < 0 then (some .blank, st.lastAsBlankTs)
        else if lastAsBlank > 0 then (none, now1 + (lastAsBlank : Rat))
        else (none, st.lastAsBlankTs)
      else if lastAsBlank < 0 then (some .blank, st.lastAsBlankTs)
      else (none, st.lastAsBlankTs)
    if lastAsBlank > 0 ∧ armed.2 ≠ 0 ∧ armed.2 < now2 then (some .blank, 0)
    else armed

/-- Embeds _stream_expose_frame (stream.c lines 358-418).  frameAlive is
whether the frame argument is non-NULL; now1 and now2 are the two
us_get_now_monotonic() reads (lines 374 and 387); gotSlot tells whether the
ring retry loop obtained a slot (false models being stopped while the ring
stays full, the early return of lines 402-404, which keeps the timer updates
already made but skips the publish, the last_online update and the jpeg-sink
fan-out); sinkConfigured and sinkAccepts are the jpeg_sink existence and the
us_memsink_server_check result in the _SINK_PUT macro (line 417). -/
def streamExposeFrame (lastAsBlank : Int) (st : ExposeState) (frameAlive : Bool)
    (now1 now2 : Rat) (gotSlot : Bool) (sinkConfigured sinkAccepts : Bool) :
    ExposeState × ExposeOut :=
  let sel := exposeSelect lastAsBlank st frameAlive now1 now2
  if gotSlot then
    let write : RingWrite :=
      match sel.1 with
      | none => .dead
      | some src => .copy src
    let sink : Option PubSrc :=
      if sinkConfigured && sinkAccepts then
        some (if frameAlive then .live else .blank)
      else none
    (⟨frameAlive, sel.2⟩, ⟨write, sink⟩)
  else
    ({ st with lastAsBlankTs := sel.2 }, ⟨.skipped, none⟩)

/-- Runs a sequence of _stream_expose_frame(NULL) calls, each with its pair of
monotonic reads, every call acquiring its ring slot; pairs each ring write
with the timestamps of its call. -/
def streamRunNulls (lastAsBlank : Int) :
    ExposeState → List (Rat × Rat) → List (RingWrite × Rat × Rat)
  | _, [] => []
  | st, (a, b) :: ts =>
      let r := streamExposeFrame lastAsBlank st false a b true true true
      (r.2.ringWrite, a, b) :: streamRunNulls lastAsBlank r.1 ts

/-! ## The releaser mailboxes (_stream_release_buffer, stream.c lines 262-264) -/

/-- Events on the releaser mailboxes: put i is _stream_release_buffer posting
a hw buffer into releasers[i].queue with zero timeout; drain i is releaser
thread i taking it out with us_queue_get. -/
inductive RelEvent
  | put (i : Nat)
  | drain (i : Nat)
  deriving DecidableEq

/-- Modelled from the spec: us_queue (the bounded blocking queue of spec 4.2,
whose implementation is not among the sources) with depth 1, one mailbox per
device buffer index.  occ i tells whether mailbox i holds an item; a put into
an occupied mailbox is the QueueFull failure (none), which in
_stream_release_buffer would fire the assert; a get empties the mailbox. -/
def relStep (occ : Nat → Bool) : RelEvent → Option (Nat → Bool)
  | .put i => if occ i then none else some (fun j => if j = i then true else occ j)
  | .drain i => some (fun j => if j = i then false else occ j)

/-- Runs releaser-mailbox events; none means some put hit a full mailbox. -/
def relRun (occ : Nat → Bool) : List RelEvent → Option (Nat → Bool)
  | [] => some occ
  | e :: es =>
      match relStep occ e with
      | none => none
      | some occ2 => relRun occ2 es

/-- Projects the events touching mailbox i, puts as true, drains as false. -/
def relOnIndex (i : Nat) : List RelEvent → List Bool
  | [] => []
  | .put j :: es =>
      if j = i then true :: relOnIndex i es else relOnIndex i es
  | .drain j :: es =>
      if j = i then false :: relOnIndex i es else relOnIndex i es

/-- Checks the depth-1 discipline on one mailbox's projected event list,
starting from occupancy p: no put may land on an occupied mailbox, every put
must be drained before the next put for the same index. -/
def relOk1 : Bool → List Bool → Bool
  | _, [] => true
  | p, true :: r => if p then false else relOk1 true r
  | _, false :: r => relOk1 false r

/-! ## Grab-result dispatch in the RUNNING loop (stream.c lines 176-182) -/

/-- What the RUNNING loop does with a us_device_grab_buffer result. -/
inductive GrabAction
  | contLoop
  | teardown
  | proceed (index : Nat)
  deriving DecidableEq

/-- Embeds the switch on buf_index in us_stream_loop (stream.c lines 177-182):
-3 continues, -2 and -1 goto close, anything else falls through the
assert(buf_index >= 0) to the fluency and assign path; none models the assert
firing on a value below -3. -/
def grabDispatch (bufIndex : Int) : Option GrabAction :=
  if bufIndex = -3 then some .contLoop
  else if bufIndex = -2 then some .teardown
  else if bufIndex = -1 then some .teardown
  else if 0 ≤ bufIndex then some (.proceed bufIndex.toNat)
  else none

/-! ## Mode selection (_find_best_mode, drm.c lines 616-655) -/

/-- Guard on the closest slot (drm.c line 634): a candidate replaces the
current closest when there is none yet or the current one does not match the
requested refresh rate. -/
def closestStale (closest : Option DrmModeInfo) (hz : Rat) : Bool :=
  match closest with
  | none => true
  | some c => decide (getRefreshRate c ≠ hz)

/-- Embeds the scanning loop of _find_best_mode (drm.c lines 621-641) over
the connector's mode list, carrying the best, closest and pref slots.
Interlaced modes are discarded; an exact-resolution mode updates best and,
when it also matches a positive requested refresh rate, breaks the loop; a
mode with matching width and smaller vdisplay updates closest under the
closestStale guard; the first preferred mode fills pref. -/
def findBestLoop (width height : Nat) (hz : Rat) :
    List DrmModeInfo → Option DrmModeInfo → Option DrmModeInfo → Option DrmModeInfo →
    Option DrmModeInfo × Option DrmModeInfo × Option DrmModeInfo
  | [], best, closest, pref => (best, closest, pref)
  | mode :: rest, best, closest, pref =>
    if mode.interlace then findBestLoop width height hz rest best closest pref
    else
      let best2 := if mode.hdisplay = width ∧ mode.vdisplay = height then some mode else best
      if mode.hdisplay = width ∧ mode.vdisplay = height ∧ 0 < hz ∧ getRefreshRate mode = hz then
        (best2, closest, pref)
      else
        let closest2 :=
          if mode.hdisplay = width ∧ mode.vdisplay < height ∧ closestStale closest hz = true then
            some mode
          else closest
        let pref2 := if pref = none ∧ mode.preferred = true then some mode else pref
        findBestLoop width height hz rest best2 closest2 pref2

/-- Embeds _find_best_mode (drm.c lines 616-655): runs the loop, then falls
back from best to closest to pref to the first mode of the connector; none
only when the connector has no modes. -/
def findBestMode (modes : List DrmModeInfo) (width height : Nat) (hz : Rat) :
    Option DrmModeInfo :=
  let r := findBestLoop width height hz modes none none none
  match r.1 with
  | some best => some best
  | none =>
    match r.2.1 with
    | some closest => some closest
    | none =>
      match r.2.2 with
      | some pref => some pref
      | none => modes.head?

/-- A non-interlaced mode with the exact requested resolution. -/
def isExact (width height : Nat) (m : DrmModeInfo) : Bool :=
  !m.interlace && decide (m.hdisplay = width) && decide (m.vdisplay = height)

/-- An exact mode that also matches the requested refresh rate. -/
def isExactHz (width height : Nat) (hz : Rat) (m : DrmModeInfo) : Bool :=
  isExact width height m && decide (getRefreshRate m = hz)

/-- A non-interlaced mode with matching width and a strictly smaller
vdisplay, the closest-candidate shape of drm.c line 633. -/
def isCloseW (width height : Nat) (m : DrmModeInfo) : Bool :=
  !m.interlace && decide (m.hdisplay = width) && decide (m.vdisplay < height)

/-- A non-interlaced preferred mode. -/
def isPrefMode (m : DrmModeInfo) : Bool :=
  !m.interlace && m.preferred

/-! ## Helper lemmas about the embedded functions -/

theorem exposeSelect_alive (lastAsBlank : Int) (st : ExposeState) (now1 now2 : Rat) :
    exposeSelect lastAsBlank st true now1 now2 = (some .live, 0) := rfl

theorem exposeSelect_zero (st : ExposeState) (now1 now2 : Rat) :
    exposeSelect 0 st false now1 now2 = (none, st.lastAsBlankTs) := by
  unfold exposeSelect
  by_cases h : st.lastOnline <;> simp [h]

theorem exposeSelect_neg (lastAsBlank : Int) (hL : lastAsBlank < 0)
    (st : ExposeState) (now1 now2 : Rat) :
    exposeSelect lastAsBlank st false now1 now2 = (some .blank, st.lastAsBlankTs) := by
  unfold exposeSelect
  by_cases h : st.lastOnline <;>
    simp [h, hL, not_lt.mpr (le_of_lt hL), asymm hL]

theorem exposeSelect_pos_online (lastAsBlank : Int) (hL : 0 < lastAsBlank)
    (st : ExposeState) (hon : st.lastOnline = true) (now1 now2 : Rat) :
    exposeSelect lastAsBlank st false now1 now2 =
      (if now1 + (lastAsBlank : Rat) ≠ 0 ∧ now1 + (lastAsBlank : Rat) < now2 then
        ((some .blank, 0) : Option PubSrc × Rat)
      else (none, now1 + (lastAsBlank : Rat))) := by
  unfold exposeSelect
  simp [hon, hL, not_lt.mpr (le_of_lt hL)]

theorem exposeSelect_pos_offline (lastAsBlank : Int) (hL : 0 < lastAsBlank)
    (st : ExposeState) (hoff : st.lastOnline = false) (now1 now2 : Rat) :
    exposeSelect lastAsBlank st false now1 now2 =
      (if st.lastAsBlankTs ≠ 0 ∧ st.lastAsBlankTs < now2 then
        ((some .blank, 0) : Option PubSrc × Rat)
      else (none, st.lastAsBlankTs)) := by
  unfold exposeSelect
  simp [hoff, hL, not_lt.mpr (le_of_lt hL)]

theorem streamExposeFrame_slot (lastAsBlank : Int) (st : ExposeState)
    (frameAlive : Bool) (now1 now2 : Rat) (sinkConfigured sinkAccepts : Bool) :
    streamExposeFrame lastAsBlank st frameAlive now1 now2 true sinkConfigured sinkAccepts =
      (⟨frameAlive, (exposeSelect lastAsBlank st frameAlive now1 now2).2⟩,
       ⟨match (exposeSelect lastAsBlank st frameAlive now1 now2).1 with
         | none => .dead
         | some src => .copy src,
        if sinkConfigured && sinkAccepts then
          some (if frameAlive then .live else .blank)
        else none⟩) := rfl

theorem streamExposeFrame_noslot (lastAsBlank : Int) (st : ExposeState)
    (frameAlive : Bool) (now1 now2 : Rat) (sinkConfigured sinkAccepts : Bool) :
    streamExposeFrame lastAsBlank st frameAlive now1 now2 false sinkConfigured sinkAccepts =
      ({ st with lastAsBlankTs := (exposeSelect lastAsBlank st frameAlive now1 now2).2 },
       ⟨.skipped, none⟩) := rfl

theorem drmVsyncRun_pending (es : List DrmEvent) :
    ∀ (st : DrmVsyncState) (p : Option Nat),
      st.exposingDmaFd = drmPendingFdVal p →
      (drmVsyncRun st es).exposingDmaFd = drmPendingFdVal (drmPendingDma p es) := by
  induction es with
  | nil =>
    intro st p h
    simpa [drmVsyncRun, drmPendingDma] using h
  | cons e es ih =>
    intro st p h
    cases e with
    | openOk =>
      simp only [drmVsyncRun, drmVsyncStep, drmPendingDma]
      exact ih _ none rfl
    | exposeDma fd =>
      simp only [drmVsyncRun, drmVsyncStep, drmPendingDma]
      exact ih _ (some fd) rfl
    | exposeStubEv =>
      simp only [drmVsyncRun, drmVsyncStep, drmPendingDma]
      exact ih _ p h
    | vsync =>
      simp only [drmVsyncRun, drmVsyncStep, drmPendingDma]
      exact ih _ none rfl
    | closeEv =>
      simp only [drmVsyncRun, drmVsyncStep, drmPendingDma]
      exact ih _ none rfl

theorem usDrmOpenRun_unplugged_latched (n : Nat) :
    usDrmOpenRun ⟨true⟩ (List.replicate n .unplugged) = (⟨true⟩, 0) := by
  induction n with
  | zero => rfl
  | succ n ih =>
    simp [List.replicate, usDrmOpenRun, usDrmOpenLatch, usDrmCloseLatch, ih]

/-! ## Claim theorems -/

/-- Claim C1, counterexample: a DMA open (dev non-null, format RGB24) with
capture geometry 1920x1200 and a chosen mode of 1920x1080 has width equal to
mode.hdisplay and height strictly greater than mode.vdisplay, so the claim
demands US_DRM_STUB_BAD_RESOLUTION; the code keeps DMA mode and returns 0,
because drm.c line 148 tests height < mode.vdisplay, not height >
mode.vdisplay. -/
theorem claim_C1_counterexample :
    usDrmOpenStub (some ⟨V4L2_PIX_FMT_RGB24, 1920, 1200, 60⟩)
        ⟨1920, 1080, 148500, 2200, 1125, 0, false, false, true⟩ = 0 ∧
    (1920 = 1920 ∧ 1200 > 1080) ∧
    usDrmOpenStub (some ⟨V4L2_PIX_FMT_RGB24, 1920, 1200, 60⟩)
        ⟨1920, 1080, 148500, 2200, 1125, 0, false, false, true⟩ ≠
      US_DRM_STUB_BAD_RESOLUTION := by
  decide

/-- Claim C1, amended: for a us_drm_open call with a non-null device of
format RGB24, the open is forced to the BAD_RESOLUTION stub iff the capture
width differs from mode.hdisplay or the capture height is strictly BELOW
mode.vdisplay; when width = mode.hdisplay and height >= mode.vdisplay it
stays in DMA mode (returns 0 on the success path). -/
theorem claim_C1_amended (w h hzv : Nat) (mode : DrmModeInfo) :
    usDrmOpenStub (some ⟨V4L2_PIX_FMT_RGB24, w, h, hzv⟩) mode =
      (if w ≠ mode.hdisplay ∨ h < mode.vdisplay then US_DRM_STUB_BAD_RESOLUTION
       else 0) := by
  simp [usDrmOpenStub]

/-- Claim C2, counterexample: the status byte x is neither c nor d; the claim
says any byte other than c is reported disconnected (-2), but
_drm_check_status (drm.c line 441) returns 0 (connected) for it. -/
theorem claim_C2_counterexample :
    'x' ≠ 'c' ∧ drmCheckStatusByte 'x' = 0 ∧ drmCheckStatusByte 'x' ≠ -2 := by
  decide

/-- Claim C2, amended: the display is reported disconnected (-2) iff the
status byte is d, and connected (0) for every other byte; each public DRM
operation short-circuits a -2 status to its unplugged return (-2 for
open/wait_for_vsync/expose_stub/expose_dma, 0 for dpms_power_off) and falls
into its body only on status 0. -/
theorem claim_C2_amended (c : Char) :
    (drmCheckStatusByte c = -2 ↔ c = 'd') ∧
    (drmCheckStatusByte c = 0 ↔ c ≠ 'd') ∧
    (∀ op : DrmOp, drmOpStatusDispatch op (-2) = some (drmOpUnpluggedReturn op)) ∧
    (∀ op : DrmOp, drmOpStatusDispatch op 0 = none) := by
  refine ⟨?_, ?_, ?_, ?_⟩
  · by_cases h : c = 'd' <;> simp [drmCheckStatusByte, h]
  · by_cases h : c = 'd' <;> simp [drmCheckStatusByte, h]
  · intro op; cases op <;> rfl
  · intro op; cases op <;> rfl

theorem claim_C2_amended_witness :
    drmCheckStatusByte 'u' = 0 ∧ ¬('u' = 'd') :=
  ⟨((claim_C2_amended 'u').2.1).mpr (by decide), by decide⟩

/-- Claim C3, counterexample: a call to _stream_expose_frame with a live
frame, the jpeg sink configured and accepting, but with the ring retry loop
broken by stop before a slot is obtained (stream.c lines 402-404), returns
early and never reaches the jpeg-sink fan-out of line 417 - so not EVERY
call fans out as the claim states. -/
theorem claim_C3_counterexample :
    (streamExposeFrame (-1) ⟨true, 0⟩ true 1 1 false true true).2.jpegSinkPut
      = none := rfl

/-- Claim C3, amended: every _stream_expose_frame call that obtains a
JPEG-ring slot (is not aborted by stop while the ring is full) fans out to
the JPEG memory-sink exactly when that sink is configured and accepts the
frame, using the passed frame when it is non-null and the blank JPEG
otherwise. -/
theorem claim_C3_amended (lastAsBlank : Int) (st : ExposeState)
    (frameAlive : Bool) (now1 now2 : Rat) (sinkConfigured sinkAccepts : Bool) :
    (streamExposeFrame lastAsBlank st frameAlive now1 now2 true
        sinkConfigured sinkAccepts).2.jpegSinkPut =
      (if sinkConfigured && sinkAccepts then
        some (if frameAlive then PubSrc.live else PubSrc.blank)
      else none) := by
  rw [streamExposeFrame_slot]

/-- Claim C5: at every point of every event trace from the initial DRM
runtime state, exposing_dma_fd carries the fd of the pending DMA expose -
some fd when an expose_dma has returned and no vsync event (nor close, nor
fresh open) has occurred since - and equals -1 otherwise; in particular it
is nonnegative only between an expose_dma return and the subsequent vsync,
whose handler resets it to -1. -/
theorem claim_C5_exposing_dma_fd (es : List DrmEvent) :
    (drmVsyncRun drmVsyncInit es).exposingDmaFd =
      drmPendingFdVal (drmPendingDma none es) :=
  drmVsyncRun_pending es drmVsyncInit none rfl

theorem claim_C5_witness :
    (drmVsyncRun drmVsyncInit [DrmEvent.exposeDma 7]).exposingDmaFd = 7 ∧
    (drmVsyncRun drmVsyncInit
      [DrmEvent.exposeDma 7, DrmEvent.vsync]).exposingDmaFd = -1 :=
  ⟨by simpa [drmPendingDma, drmPendingFdVal] using
      claim_C5_exposing_dma_fd [DrmEvent.exposeDma 7],
   by simpa [drmPendingDma, drmPendingFdVal] using
      claim_C5_exposing_dma_fd [DrmEvent.exposeDma 7, DrmEvent.vsync]⟩

/-- Claim C7: the RUNNING loop dispatches the us_device_grab_buffer result as
the switch of stream.c lines 177-182: -3 continues to the next iteration, -2
and -1 go to teardown, and every nonnegative value is a valid buffer index
that proceeds to the fluency / assign path. -/
theorem claim_C7_grab_dispatch :
    grabDispatch (-3) = some .contLoop ∧
    grabDispatch (-2) = some .teardown ∧
    grabDispatch (-1) = some .teardown ∧
    (∀ i : Int, 0 ≤ i → grabDispatch i = some (.proceed i.toNat)) := by
  refine ⟨by decide, by decide, by decide, ?_⟩
  intro i hi
  have h3 : ¬(i = -3) := by omega
  have h2 : ¬(i = -2) := by omega
  have h1 : ¬(i = -1) := by omega
  simp [grabDispatch, h3, h2, h1, hi]

theorem claim_C7_witness :
    (0 : Int) ≤ 5 ∧ grabDispatch 5 = some (.proceed 5) :=
  ⟨by decide, claim_C7_grab_dispatch.2.2.2 5 (by decide)⟩

/-- Claim C9: us_drm_open is unplugged-idempotent.  Starting from a cleared
latch, any positive number of consecutive unplugged open attempts logs the
condition exactly once and leaves the latch set; us_drm_close never changes
the latch (so it survives the close performed on the unplugged path); and
from a set latch, the only open outcome that clears it is a successful
open. -/
theorem claim_C9_unplugged_idempotent (n : Nat) (hn : 1 ≤ n) :
    (usDrmOpenRun ⟨false⟩ (List.replicate n .unplugged)).2 = 1 ∧
    (usDrmOpenRun ⟨false⟩ (List.replicate n .unplugged)).1.unpluggedReported = true ∧
    (∀ st : DrmLatchState, usDrmCloseLatch st = st) ∧
    (∀ (st : DrmLatchState) (inp : DrmOpenInput),
      st.unpluggedReported = true →
      ((usDrmOpenLatch st inp).1.unpluggedReported = false ↔ inp = .ok)) := by
  obtain ⟨m, rfl⟩ : ∃ m, n = m + 1 := ⟨n - 1, by omega⟩
  refine ⟨?_, ?_, fun st => rfl, ?_⟩
  · simp [List.replicate, usDrmOpenRun, usDrmOpenLatch, usDrmCloseLatch,
      usDrmOpenRun_unplugged_latched]
  · simp [List.replicate, usDrmOpenRun, usDrmOpenLatch, usDrmCloseLatch,
      usDrmOpenRun_unplugged_latched]
  · intro st inp hst
    cases inp <;> simp [usDrmOpenLatch, usDrmCloseLatch, hst]

theorem claim_C9_witness :
    (1 : Nat) ≤ 3 ∧
    (usDrmOpenRun ⟨false⟩ (List.replicate 3 .unplugged)).2 = 1 :=
  ⟨by decide, (claim_C9_unplugged_idempotent 3 (by decide)).1⟩

/-- Claim C10: an expose of NULL that obtains its ring slot and decides to
keep the last live frame - last_as_blank = 0, or last_as_blank > 0 with the
blank timer armed but not yet expired (on the transition call the timer just
armed at now1 + last_as_blank, afterwards the stored deadline) - still
overwrites the acquired slot as a dead frame: used becomes 0, online becomes
false, and the slot's previous payload bytes are left in place rather than
re-copied from the last live frame. -/
theorem claim_C10_dead_overwrite (lastAsBlank : Int) (st : ExposeState)
    (now1 now2 : Rat) (sinkConfigured sinkAccepts : Bool)
    (liveBytes blankBytes : List Nat) (dest : RingFrame)
    (hkeep : lastAsBlank = 0 ∨
      (0 < lastAsBlank ∧ st.lastOnline = true ∧
        ¬(now1 + (lastAsBlank : Rat) < now2)) ∨
      (0 < lastAsBlank ∧ st.lastOnline = false ∧ st.lastAsBlankTs ≠ 0 ∧
        ¬(st.lastAsBlankTs < now2))) :
    (streamExposeFrame lastAsBlank st false now1 now2 true
        sinkConfigured sinkAccepts).2.ringWrite = .dead ∧
    applyRingWrite liveBytes blankBytes dest
        (streamExposeFrame lastAsBlank st false now1 now2 true
          sinkConfigured sinkAccepts).2.ringWrite =
      { dest with used := 0, online := false } := by
  have hsel : (exposeSelect lastAsBlank st false now1 now2).1 = none := by
    rcases hkeep with h0 | ⟨hL, hon, hnf⟩ | ⟨hL, hoff, hts, hnf⟩
    · subst h0; rw [exposeSelect_zero]
    · rw [exposeSelect_pos_online lastAsBlank hL st hon now1 now2]
      simp [hnf]
    · rw [exposeSelect_pos_offline lastAsBlank hL st hoff now1 now2]
      simp [hnf]
  rw [streamExposeFrame_slot]
  simp [hsel, applyRingWrite]

theorem claim_C10_witness :
    (streamExposeFrame 0 ⟨true, 0⟩ false 1 1 true true true).2.ringWrite =
      .dead ∧
    applyRingWrite [5, 5] [7] ⟨9, true, [1, 2, 3]⟩
        (streamExposeFrame 0 ⟨true, 0⟩ false 1 1 true true true).2.ringWrite =
      ⟨0, false, [1, 2, 3]⟩ :=
  claim_C10_dead_overwrite 0 ⟨true, 0⟩ 1 1 true true [5, 5] [7]
    ⟨9, true, [1, 2, 3]⟩ (Or.inl rfl)

theorem relOnIndex_put_self (i : Nat) (es : List RelEvent) :
    relOnIndex i (RelEvent.put i :: es) = true :: relOnIndex i es := by
  simp [relOnIndex]

theorem relOnIndex_drain_self (i : Nat) (es : List RelEvent) :
    relOnIndex i (RelEvent.drain i :: es) = false :: relOnIndex i es := by
  simp [relOnIndex]

theorem relOnIndex_put_other (i j : Nat) (hij : j ≠ i) (es : List RelEvent) :
    relOnIndex i (RelEvent.put j :: es) = relOnIndex i es := by
  simp [relOnIndex, hij]

theorem relOnIndex_drain_other (i j : Nat) (hij : j ≠ i) (es : List RelEvent) :
    relOnIndex i (RelEvent.drain j :: es) = relOnIndex i es := by
  simp [relOnIndex, hij]

theorem relRun_isSome (es : List RelEvent) :
    ∀ occ : Nat → Bool, (∀ i, relOk1 (occ i) (relOnIndex i es) = true) →
      (relRun occ es).isSome = true := by
  induction es with
  | nil => intro occ _; rfl
  | cons e es ih =>
    intro occ h
    cases e with
    | put i =>
      have hi := h i
      rw [relOnIndex_put_self] at hi
      have hocc : occ i = false := by
        cases hc : occ i
        · rfl
        · rw [relOk1, if_pos hc] at hi; exact absurd hi (by simp)
      rw [relOk1, if_neg (by simp [hocc])] at hi
      simp only [relRun, relStep, hocc, Bool.false_eq_true, if_false]
      apply ih
      intro j
      by_cases hj : j = i
      · subst hj; simpa using hi
      · have := h j
        rw [relOnIndex_put_other j i (Ne.symm hj)] at this
        simpa [hj] using this
    | drain i =>
      have hi := h i
      rw [relOnIndex_drain_self, relOk1] at hi
      simp only [relRun, relStep]
      apply ih
      intro j
      by_cases hj : j = i
      · subst hj; simpa using hi
      · have := h j
        rw [relOnIndex_drain_other j i (Ne.symm hj)] at this
        simpa [hj] using this

/-- Claim C6: under the depth-1 release discipline - on each device buffer
index, every posted release is drained by its releaser thread before the next
release for the same index is posted (relOk1 on each mailbox's projected
history, starting empty) - the zero-timeout us_queue_put performed by
_stream_release_buffer never finds its mailbox full, so the assert of
stream.c line 263 never fires: the QueueFull failure (the none outcome) is
unreachable on the release path. -/
theorem claim_C6_release_put_succeeds (es : List RelEvent)
    (h : ∀ i, relOk1 false (relOnIndex i es) = true) :
    (relRun (fun _ => false) es).isSome = true :=
  relRun_isSome es (fun _ => false) h

theorem claim_C6_witness :
    (relRun (fun _ => false)
      [RelEvent.put 0, RelEvent.put 1, RelEvent.drain 0, RelEvent.put 0,
       RelEvent.drain 1, RelEvent.drain 0]).isSome = true := by
  apply claim_C6_release_put_succeeds
  intro i
  match i with
  | 0 => decide
  | 1 => decide
  | n + 2 => simp [relOnIndex, relOk1]

theorem streamRunNulls_cons (lastAsBlank : Int) (st : ExposeState)
    (a b : Rat) (ts : List (Rat × Rat)) :
    streamRunNulls lastAsBlank st ((a, b) :: ts) =
      ((streamExposeFrame lastAsBlank st false a b true true true).2.ringWrite, a, b) ::
        streamRunNulls lastAsBlank
          (streamExposeFrame lastAsBlank st false a b true true true).1 ts := rfl

theorem streamRunNulls_zero (ts : List (Rat × Rat)) :
    ∀ st : ExposeState, ∀ p ∈ streamRunNulls 0 st ts, p.1 = RingWrite.dead := by
  induction ts with
  | nil => intro st p hp; simp [streamRunNulls] at hp
  | cons t ts ih =>
    intro st p hp
    obtain ⟨a, b⟩ := t
    rw [streamRunNulls_cons] at hp
    rcases List.mem_cons.mp hp with rfl | hp
    · rw [streamExposeFrame_slot]
      simp [exposeSelect_zero]
    · exact ih _ p hp

theorem streamRunNulls_pos_disarmed (lastAsBlank : Int) (hL : 0 < lastAsBlank)
    (ts : List (Rat × Rat)) :
    ∀ p ∈ streamRunNulls lastAsBlank ⟨false, 0⟩ ts, p.1 = RingWrite.dead := by
  induction ts with
  | nil => intro p hp; simp [streamRunNulls] at hp
  | cons t ts ih =>
    intro p hp
    obtain ⟨a, b⟩ := t
    rw [streamRunNulls_cons] at hp
    have hsel : exposeSelect lastAsBlank ⟨false, 0⟩ false a b = (none, 0) := by
      rw [exposeSelect_pos_offline lastAsBlank hL ⟨false, 0⟩ rfl a b]
      simp
    rcases List.mem_cons.mp hp with rfl | hp
    · rw [streamExposeFrame_slot]
      simp [hsel]
    · rw [streamExposeFrame_slot] at hp
      simp only [hsel] at hp
      exact ih p hp

theorem streamRunNulls_pos_armed_sound (lastAsBlank : Int) (hL : 0 < lastAsBlank)
    (ts : List (Rat × Rat)) :
    ∀ T : Rat, ∀ p ∈ streamRunNulls lastAsBlank ⟨false, T⟩ ts,
      p.1 = RingWrite.copy .blank → T < p.2.2 := by
  induction ts with
  | nil => intro T p hp; simp [streamRunNulls] at hp
  | cons t ts ih =>
    intro T p hp hblank
    obtain ⟨a, b⟩ := t
    rw [streamRunNulls_cons] at hp
    by_cases hfire : T ≠ 0 ∧ T < b
    · have hsel : exposeSelect lastAsBlank ⟨false, T⟩ false a b = (some .blank, 0) := by
        rw [exposeSelect_pos_offline lastAsBlank hL ⟨false, T⟩ rfl a b]
        simp [hfire]
      rcases List.mem_cons.mp hp with rfl | hp
      · exact hfire.2
      · rw [streamExposeFrame_slot] at hp
        simp only [hsel] at hp
        have := streamRunNulls_pos_disarmed lastAsBlank hL ts p hp
        rw [this] at hblank
        exact absurd hblank (by simp)
    · have hsel : exposeSelect lastAsBlank ⟨false, T⟩ false a b = (none, T) := by
        rw [exposeSelect_pos_offline lastAsBlank hL ⟨false, T⟩ rfl a b]
        simp [hfire]
      rcases List.mem_cons.mp hp with rfl | hp
      · rw [streamExposeFrame_slot] at hblank
        simp [hsel] at hblank
      · rw [streamExposeFrame_slot] at hp
        simp only [hsel] at hp
        exact ih T p hp hblank

theorem streamRunNulls_pos_armed_live (lastAsBlank : Int) (hL : 0 < lastAsBlank)
    (ts : List (Rat × Rat)) :
    ∀ T : Rat, T ≠ 0 → (∃ q ∈ ts, T < q.2) →
      ∃ p ∈ streamRunNulls lastAsBlank ⟨false, T⟩ ts, p.1 = RingWrite.copy .blank := by
  induction ts with
  | nil => intro T _ hex; simp at hex
  | cons t ts ih =>
    intro T hT hex
    obtain ⟨a, b⟩ := t
    rw [streamRunNulls_cons]
    by_cases hfire : T < b
    · have hsel : exposeSelect lastAsBlank ⟨false, T⟩ false a b = (some .blank, 0) := by
        rw [exposeSelect_pos_offline lastAsBlank hL ⟨false, T⟩ rfl a b]
        simp [hT, hfire]
      refine ⟨((streamExposeFrame lastAsBlank ⟨false, T⟩ false a b true true true).2.ringWrite, a, b),
        List.mem_cons_self _ _, ?_⟩
      rw [streamExposeFrame_slot]
      simp [hsel]
    · have hsel : exposeSelect lastAsBlank ⟨false, T⟩ false a b = (none, T) := by
        rw [exposeSelect_pos_offline lastAsBlank hL ⟨false, T⟩ rfl a b]
        simp [hfire]
      have hex2 : ∃ q ∈ ts, T < q.2 := by
        rcases hex with ⟨q, hq, hlt⟩
        rcases List.mem_cons.mp hq with rfl | hq
        · exact absurd hlt hfire
        · exact ⟨q, hq, hlt⟩
      obtain ⟨p, hp, hpb⟩ := ih T hT hex2
      refine ⟨p, List.mem_cons_of_mem _ ?_, hpb⟩
      rw [streamExposeFrame_slot]
      simpa only [hsel] using hp

/-- Claim C4: after a run of live exposes (state last_online = true, timer
stopped) followed by _stream_expose_frame(NULL) calls at monotonic read pairs
(a1, b1), rest (every call obtaining its ring slot): with last_as_blank < 0
the very first null expose publishes the blank JPEG; with last_as_blank = 0
the blank is never published; with last_as_blank > 0 every blank publish
happens at a time no earlier than the transition read a1 plus last_as_blank,
no blank is published at the transition call unless its own duration already
exceeds the timer, and if some call's second read lies beyond a1 +
last_as_blank then the blank is eventually published. -/
theorem claim_C4_blank_fallback (lastAsBlank : Int) (a1 b1 : Rat)
    (rest : List (Rat × Rat)) :
    (lastAsBlank < 0 →
      (streamRunNulls lastAsBlank ⟨true, 0⟩ ((a1, b1) :: rest)).head? =
        some (.copy .blank, a1, b1)) ∧
    (lastAsBlank = 0 →
      ∀ p ∈ streamRunNulls lastAsBlank ⟨true, 0⟩ ((a1, b1) :: rest),
        p.1 ≠ .copy .blank) ∧
    (0 < lastAsBlank →
      ∀ p ∈ streamRunNulls lastAsBlank ⟨true, 0⟩ ((a1, b1) :: rest),
        p.1 = .copy .blank → a1 + (lastAsBlank : Rat) ≤ p.2.2) ∧
    (0 < lastAsBlank → ¬(a1 + (lastAsBlank : Rat) < b1) →
      (streamRunNulls lastAsBlank ⟨true, 0⟩ ((a1, b1) :: rest)).head? =
        some (.dead, a1, b1)) ∧
    (0 < lastAsBlank → 0 ≤ a1 →
      (∃ q ∈ (a1, b1) :: rest, a1 + (lastAsBlank : Rat) < q.2) →
      ∃ p ∈ streamRunNulls lastAsBlank ⟨true, 0⟩ ((a1, b1) :: rest),
        p.1 = .copy .blank) := by
  refine ⟨?_, ?_, ?_, ?_, ?_⟩
  · intro hL
    rw [streamRunNulls_cons, streamExposeFrame_slot]
    simp [exposeSelect_neg lastAsBlank hL]
  · intro hL p hp
    subst hL
    have := streamRunNulls_zero ((a1, b1) :: rest) ⟨true, 0⟩ p hp
    simp [this]
  · intro hL p hp hblank
    rw [streamRunNulls_cons] at hp
    by_cases hfire : a1 + (lastAsBlank : Rat) ≠ 0 ∧ a1 + (lastAsBlank : Rat) < b1
    · have hsel : exposeSelect lastAsBlank ⟨true, 0⟩ false a1 b1 = (some .blank, 0) := by
        rw [exposeSelect_pos_online lastAsBlank hL ⟨true, 0⟩ rfl a1 b1]
        simp [hfire]
      rcases List.mem_cons.mp hp with rfl | hp
      · exact le_of_lt hfire.2
      · rw [streamExposeFrame_slot] at hp
        simp only [hsel] at hp
        have := streamRunNulls_pos_disarmed lastAsBlank hL rest p hp
        rw [this] at hblank
        exact absurd hblank (by simp)
    · have hsel : exposeSelect lastAsBlank ⟨true, 0⟩ false a1 b1 =
          (none, a1 + (lastAsBlank : Rat)) := by
        rw [exposeSelect_pos_online lastAsBlank hL ⟨true, 0⟩ rfl a1 b1]
        simp [hfire]
      rcases List.mem_cons.mp hp with rfl | hp
      · rw [streamExposeFrame_slot] at hblank
        simp [hsel] at hblank
      · rw [streamExposeFrame_slot] at hp
        simp only [hsel] at hp
        have := streamRunNulls_pos_armed_sound lastAsBlank hL rest
          (a1 + (lastAsBlank : Rat)) p hp hblank
        exact le_of_lt this
  · intro hL hnf
    rw [streamRunNulls_cons, streamExposeFrame_slot]
    have hsel : exposeSelect lastAsBlank ⟨true, 0⟩ false a1 b1 =
        (none, a1 + (lastAsBlank : Rat)) := by
      rw [exposeSelect_pos_online lastAsBlank hL ⟨true, 0⟩ rfl a1 b1]
      simp [hnf]
    simp [hsel]
  · intro hL ha1 hex
    have hTpos : (0 : Rat) < a1 + (lastAsBlank : Rat) := by
      have : (0 : Rat) < (lastAsBlank : Rat) := by exact_mod_cast hL
      linarith
    rw [streamRunNulls_cons]
    by_cases hfire : a1 + (lastAsBlank : Rat) < b1
    · have hsel : exposeSelect lastAsBlank ⟨true, 0⟩ false a1 b1 = (some .blank, 0) := by
        rw [exposeSelect_pos_online lastAsBlank hL ⟨true, 0⟩ rfl a1 b1]
        simp [ne_of_gt hTpos, hfire]
      refine ⟨((streamExposeFrame lastAsBlank ⟨true, 0⟩ false a1 b1 true true true).2.ringWrite,
        a1, b1), List.mem_cons_self _ _, ?_⟩
      rw [streamExposeFrame_slot]
      simp [hsel]
    · have hsel : exposeSelect lastAsBlank ⟨true, 0⟩ false a1 b1 =
          (none, a1 + (lastAsBlank : Rat)) := by
        rw [exposeSelect_pos_online lastAsBlank hL ⟨true, 0⟩ rfl a1 b1]
        simp [hfire]
      have hex2 : ∃ q ∈ rest, a1 + (lastAsBlank : Rat) < q.2 := by
        rcases hex with ⟨q, hq, hlt⟩
        rcases List.mem_cons.mp hq with rfl | hq
        · exact absurd hlt hfire
        · exact ⟨q, hq, hlt⟩
      obtain ⟨p, hp, hpb⟩ := streamRunNulls_pos_armed_live lastAsBlank hL rest
        (a1 + (lastAsBlank : Rat)) (ne_of_gt hTpos) hex2
      refine ⟨p, List.mem_cons_of_mem _ ?_, hpb⟩
      rw [streamExposeFrame_slot]
      simpa only [hsel] using hp

theorem claim_C4_witness :
    ((-1 : Int) < 0 ∧
      (streamRunNulls (-1) ⟨true, 0⟩ [((0 : Rat), (0 : Rat))]).head? =
        some (.copy .blank, 0, 0)) ∧
    ((0 : Int) < 1 ∧ (0 : Rat) ≤ 0 ∧
      ∃ p ∈ streamRunNulls 1 ⟨true, 0⟩ [((0 : Rat), (0 : Rat)), ((2 : Rat), (3 : Rat))],
        p.1 = RingWrite.copy .blank) :=
  ⟨⟨by norm_num, (claim_C4_blank_fallback (-1) 0 0 []).1 (by norm_num)⟩,
   ⟨by norm_num, by norm_num,
    (claim_C4_blank_fallback 1 0 0 [((2 : Rat), (3 : Rat))]).2.2.2.2 (by norm_num)
      (by norm_num)
      ⟨((2 : Rat), (3 : Rat)), by simp, by norm_num⟩⟩⟩

theorem isExact_iff (width height : Nat) (m : DrmModeInfo) :
    isExact width height m = true ↔
      m.interlace = false ∧ m.hdisplay = width ∧ m.vdisplay = height := by
  simp [isExact, Bool.and_eq_true, decide_eq_true_iff, Bool.not_eq_true',
    and_assoc]

theorem isExactHz_iff (width height : Nat) (hz : Rat) (m : DrmModeInfo) :
    isExactHz width height hz m = true ↔
      m.interlace = false ∧ m.hdisplay = width ∧ m.vdisplay = height ∧
        getRefreshRate m = hz := by
  simp [isExactHz, Bool.and_eq_true, decide_eq_true_iff, isExact_iff, and_assoc]

theorem isCloseW_iff (width height : Nat) (m : DrmModeInfo) :
    isCloseW width height m = true ↔
      m.interlace = false ∧ m.hdisplay = width ∧ m.vdisplay < height := by
  simp [isCloseW, Bool.and_eq_true, decide_eq_true_iff, Bool.not_eq_true',
    and_assoc]

theorem isPrefMode_iff (m : DrmModeInfo) :
    isPrefMode m = true ↔ m.interlace = false ∧ m.preferred = true := by
  simp [isPrefMode, Bool.and_eq_true, Bool.not_eq_true']

theorem closestStale_false_isSome (closest : Option DrmModeInfo) (hz : Rat)
    (h : closestStale closest hz = false) : closest.isSome = true := by
  cases closest with
  | none => simp [closestStale] at h
  | some c => rfl

theorem findBestLoop_break (width height : Nat) (hz : Rat)
    (modes : List DrmModeInfo) :
    ∀ (best closest pref : Option DrmModeInfo) (m : DrmModeInfo),
      modes.find? (isExactHz width height hz) = some m → 0 < hz →
      (findBestLoop width height hz modes best closest pref).1 = some m := by
  induction modes with
  | nil => intro best closest pref m hf _; simp at hf
  | cons x tl ih =>
    intro best closest pref m hf hhz
    by_cases hx : isExactHz width height hz x = true
    · rw [List.find?_cons_of_pos _ hx] at hf
      injection hf with hf
      subst hf
      obtain ⟨hintl, hhd, hvd, hrr⟩ := (isExactHz_iff width height hz x).mp hx
      simp only [findBestLoop, hintl, Bool.false_eq_true, if_false]
      rw [if_pos ⟨hhd, hvd, hhz, hrr⟩, if_pos ⟨hhd, hvd⟩]
    · rw [List.find?_cons_of_neg _ (by simpa using hx)] at hf
      by_cases hintl : x.interlace
      · simp only [findBestLoop, hintl, if_true]
        exact ih _ _ _ m hf hhz
      · have hnbrk : ¬(x.hdisplay = width ∧ x.vdisplay = height ∧ 0 < hz ∧
            getRefreshRate x = hz) := by
          intro ⟨h1, h2, _, h4⟩
          exact hx ((isExactHz_iff width height hz x).mpr
            ⟨Bool.not_eq_true x.interlace ▸ hintl, h1, h2, h4⟩)
        simp only [findBestLoop, hintl, Bool.false_eq_true, if_false]
        rw [if_neg hnbrk]
        exact ih _ _ _ m hf hhz

theorem findBestLoop_best_exact (width height : Nat) (hz : Rat)
    (modes : List DrmModeInfo) :
    ∀ best closest pref : Option DrmModeInfo,
      (∀ mb, best = some mb → isExact width height mb = true) →
      ∀ r, (findBestLoop width height hz modes best closest pref).1 = some r →
        isExact width height r = true := by
  induction modes with
  | nil =>
    intro best closest pref hinv r hr
    exact hinv r hr
  | cons x tl ih =>
    intro best closest pref hinv r hr
    by_cases hintl : x.interlace
    · simp only [findBestLoop, hintl, if_true] at hr
      exact ih _ _ _ hinv r hr
    · simp only [findBestLoop, hintl, Bool.false_eq_true, if_false] at hr
      have hintl' : x.interlace = false := Bool.not_eq_true x.interlace ▸ hintl
      have hinv2 : ∀ mb,
          (if x.hdisplay = width ∧ x.vdisplay = height then some x else best) = some mb →
          isExact width height mb = true := by
        intro mb hmb
        by_cases hres : x.hdisplay = width ∧ x.vdisplay = height
        · rw [if_pos hres] at hmb
          injection hmb with hmb
          subst hmb
          exact (isExact_iff width height x).mpr ⟨hintl', hres.1, hres.2⟩
        · rw [if_neg hres] at hmb
          exact hinv mb hmb
      by_cases hbrk : x.hdisplay = width ∧ x.vdisplay = height ∧ 0 < hz ∧
          getRefreshRate x = hz
      · rw [if_pos hbrk] at hr
        exact hinv2 r hr
      · rw [if_neg hbrk] at hr
        exact ih _ _ _ hinv2 r hr

theorem findBestLoop_best_isSome (width height : Nat) (hz : Rat)
    (modes : List DrmModeInfo) :
    ∀ best closest pref : Option DrmModeInfo,
      ((∃ m ∈ modes, isExact width height m = true) ∨ best.isSome = true) →
      (findBestLoop width height hz modes best closest pref).1.isSome = true := by
  induction modes with
  | nil =>
    intro best closest pref hex
    rcases hex with ⟨m, hm, _⟩ | hb
    · simp at hm
    · exact hb
  | cons x tl ih =>
    intro best closest pref hex
    by_cases hintl : x.interlace
    · simp only [findBestLoop, hintl, if_true]
      apply ih
      rcases hex with ⟨m, hm, hme⟩ | hb
      · rcases List.mem_cons.mp hm with rfl | hm
        · rw [isExact_iff] at hme
          rw [hme.1] at hintl
          exact absurd hintl (by simp)
        · exact Or.inl ⟨m, hm, hme⟩
      · exact Or.inr hb
    · simp only [findBestLoop, hintl, Bool.false_eq_true, if_false]
      have hintl' : x.interlace = false := Bool.not_eq_true x.interlace ▸ hintl
      by_cases hres : x.hdisplay = width ∧ x.vdisplay = height
      · by_cases hbrk : x.hdisplay = width ∧ x.vdisplay = height ∧ 0 < hz ∧
            getRefreshRate x = hz
        · rw [if_pos hbrk, if_pos hres]
          rfl
        · rw [if_neg hbrk]
          apply ih
          rw [if_pos hres]
          exact Or.inr rfl
      · have hnbrk : ¬(x.hdisplay = width ∧ x.vdisplay = height ∧ 0 < hz ∧
            getRefreshRate x = hz) := fun h => hres ⟨h.1, h.2.1⟩
        rw [if_neg hnbrk, if_neg hres]
        apply ih
        rcases hex with ⟨m, hm, hme⟩ | hb
        · rcases List.mem_cons.mp hm with rfl | hm
          · rw [isExact_iff] at hme
            exact absurd ⟨hme.2.1, hme.2.2⟩ hres
          · exact Or.inl ⟨m, hm, hme⟩
        · exact Or.inr hb

theorem findBestLoop_no_exact_best (width height : Nat) (hz : Rat)
    (modes : List DrmModeInfo) :
    ∀ best closest pref : Option DrmModeInfo,
      (∀ m ∈ modes, isExact width height m = false) →
      (findBestLoop width height hz modes best closest pref).1 = best := by
  induction modes with
  | nil => intro best closest pref _; rfl
  | cons x tl ih =>
    intro best closest pref hno
    have hnox : isExact width height x = false := hno x (List.mem_cons_self _ _)
    have hnotl : ∀ m ∈ tl, isExact width height m = false := fun m hm =>
      hno m (List.mem_cons_of_mem _ hm)
    by_cases hintl : x.interlace
    · simp only [findBestLoop, hintl, if_true]
      exact ih _ _ _ hnotl
    · have hintl' : x.interlace = false := Bool.not_eq_true x.interlace ▸ hintl
      have hres : ¬(x.hdisplay = width ∧ x.vdisplay = height) := by
        intro h
        rw [(isExact_iff width height x).mpr ⟨hintl', h.1, h.2⟩] at hnox
        exact absurd hnox (by simp)
      simp only [findBestLoop, hintl, Bool.false_eq_true, if_false]
      rw [if_neg (fun h => hres ⟨h.1, h.2.1⟩), if_neg hres]
      exact ih _ _ _ hnotl

theorem findBestLoop_closest_prop (width height : Nat) (hz : Rat)
    (modes : List DrmModeInfo) :
    ∀ best closest pref : Option DrmModeInfo,
      (∀ mc, closest = some mc → isCloseW width height mc = true) →
      ∀ r, (findBestLoop width height hz modes best closest pref).2.1 = some r →
        isCloseW width height r = true := by
  induction modes with
  | nil =>
    intro best closest pref hinv r hr
    exact hinv r hr
  | cons x tl ih =>
    intro best closest pref hinv r hr
    by_cases hintl : x.interlace
    · simp only [findBestLoop, hintl, if_true] at hr
      exact ih _ _ _ hinv r hr
    · simp only [findBestLoop, hintl, Bool.false_eq_true, if_false] at hr
      have hintl' : x.interlace = false := Bool.not_eq_true x.interlace ▸ hintl
      by_cases hbrk : x.hdisplay = width ∧ x.vdisplay = height ∧ 0 < hz ∧
          getRefreshRate x = hz
      · rw [if_pos hbrk] at hr
        exact hinv r hr
      · rw [if_neg hbrk] at hr
        have hinv2 : ∀ mc,
            (if x.hdisplay = width ∧ x.vdisplay < height ∧ closestStale closest hz = true
             then some x else closest) = some mc →
            isCloseW width height mc = true := by
          intro mc hmc
          by_cases hcond : x.hdisplay = width ∧ x.vdisplay < height ∧
              closestStale closest hz = true
          · rw [if_pos hcond] at hmc
            injection hmc with hmc
            subst hmc
            exact (isCloseW_iff width height x).mpr ⟨hintl', hcond.1, hcond.2.1⟩
          · rw [if_neg hcond] at hmc
            exact hinv mc hmc
        exact ih _ _ _ hinv2 r hr

theorem findBestLoop_closest_isSome (width height : Nat) (hz : Rat)
    (modes : List DrmModeInfo) :
    ∀ best closest pref : Option DrmModeInfo,
      (∀ m ∈ modes, isExact width height m = false) →
      ((∃ m ∈ modes, isCloseW width height m = true) ∨ closest.isSome = true) →
      (findBestLoop width height hz modes best closest pref).2.1.isSome = true := by
  induction modes with
  | nil =>
    intro best closest pref _ hex
    rcases hex with ⟨m, hm, _⟩ | hb
    · simp at hm
    · exact hb
  | cons x tl ih =>
    intro best closest pref hno hex
    have hnox : isExact width height x = false := hno x (List.mem_cons_self _ _)
    have hnotl : ∀ m ∈ tl, isExact width height m = false := fun m hm =>
      hno m (List.mem_cons_of_mem _ hm)
    by_cases hintl : x.interlace
    · simp only [findBestLoop, hintl, if_true]
      apply ih _ _ _ hnotl
      rcases hex with ⟨m, hm, hme⟩ | hb
      · rcases List.mem_cons.mp hm with rfl | hm
        · rw [isCloseW_iff] at hme
          rw [hme.1] at hintl
          exact absurd hintl (by simp)
        · exact Or.inl ⟨m, hm, hme⟩
      · exact Or.inr hb
    · have hintl' : x.interlace = false := Bool.not_eq_true x.interlace ▸ hintl
      have hres : ¬(x.hdisplay = width ∧ x.vdisplay = height) := by
        intro h
        rw [(isExact_iff width height x).mpr ⟨hintl', h.1, h.2⟩] at hnox
        exact absurd hnox (by simp)
      simp only [findBestLoop, hintl, Bool.false_eq_true, if_false]
      rw [if_neg (fun h => hres ⟨h.1, h.2.1⟩)]
      apply ih _ _ _ hnotl
      by_cases hcond : x.hdisplay = width ∧ x.vdisplay < height ∧
          closestStale closest hz = true
      · rw [if_pos hcond]
        exact Or.inr rfl
      · rw [if_neg hcond]
        rcases hex with ⟨m, hm, hme⟩ | hb
        · rcases List.mem_cons.mp hm with rfl | hm
          · rw [isCloseW_iff] at hme
            by_cases hstale : closestStale closest hz = true
            · exact absurd ⟨hme.2.1, hme.2.2, hstale⟩ hcond
            · exact Or.inr (closestStale_false_isSome closest hz
                (Bool.not_eq_true _ ▸ hstale))
          · exact Or.inl ⟨m, hm, hme⟩
        · exact Or.inr hb

theorem findBestLoop_closest_of_none (width height : Nat) (hz : Rat)
    (modes : List DrmModeInfo) :
    ∀ best closest pref : Option DrmModeInfo,
      (∀ m ∈ modes, isExact width height m = false) →
      (∀ m ∈ modes, isCloseW width height m = false) →
      (findBestLoop width height hz modes best closest pref).2.1 = closest := by
  induction modes with
  | nil => intro best closest pref _ _; rfl
  | cons x tl ih =>
    intro best closest pref hno hnoc
    have hnox : isExact width height x = false := hno x (List.mem_cons_self _ _)
    have hnocx : isCloseW width height x = false := hnoc x (List.mem_cons_self _ _)
    have hnotl : ∀ m ∈ tl, isExact width height m = false := fun m hm =>
      hno m (List.mem_cons_of_mem _ hm)
    have hnoctl : ∀ m ∈ tl, isCloseW width height m = false := fun m hm =>
      hnoc m (List.mem_cons_of_mem _ hm)
    by_cases hintl : x.interlace
    · simp only [findBestLoop, hintl, if_true]
      exact ih _ _ _ hnotl hnoctl
    · have hintl' : x.interlace = false := Bool.not_eq_true x.interlace ▸ hintl
      have hres : ¬(x.hdisplay = width ∧ x.vdisplay = height) := by
        intro h
        rw [(isExact_iff width height x).mpr ⟨hintl', h.1, h.2⟩] at hnox
        exact absurd hnox (by simp)
      have hclose : ¬(x.hdisplay = width ∧ x.vdisplay < height) := by
        intro h
        rw [(isCloseW_iff width height x).mpr ⟨hintl', h.1, h.2⟩] at hnocx
        exact absurd hnocx (by simp)
      simp only [findBestLoop, hintl, Bool.false_eq_true, if_false]
      rw [if_neg (fun h => hres ⟨h.1, h.2.1⟩),
        if_neg (show ¬(x.hdisplay = width ∧ x.vdisplay < height ∧
          closestStale closest hz = true) from fun h => hclose ⟨h.1, h.2.1⟩)]
      exact ih _ _ _ hnotl hnoctl

theorem findBestLoop_pref (width height : Nat) (hz : Rat)
    (modes : List DrmModeInfo) :
    ∀ best closest pref : Option DrmModeInfo,
      (∀ m ∈ modes, isExact width height m = false) →
      (findBestLoop width height hz modes best closest pref).2.2 =
        (match pref with
         | some p => some p
         | none => modes.find? isPrefMode) := by
  induction modes with
  | nil =>
    intro best closest pref _
    cases pref <;> rfl
  | cons x tl ih =>
    intro best closest pref hno
    have hnox : isExact width height x = false := hno x (List.mem_cons_self _ _)
    have hnotl : ∀ m ∈ tl, isExact width height m = false := fun m hm =>
      hno m (List.mem_cons_of_mem _ hm)
    by_cases hintl : x.interlace
    · have hpx : isPrefMode x = false := by
        simp [isPrefMode, hintl]
      simp only [findBestLoop, hintl, if_true]
      rw [ih _ _ _ hnotl]
      cases pref with
      | none => rw [List.find?_cons_of_neg _ (by simp [hpx])]
      | some p => rfl
    · have hintl' : x.interlace = false := Bool.not_eq_true x.interlace ▸ hintl
      have hres : ¬(x.hdisplay = width ∧ x.vdisplay = height) := by
        intro h
        rw [(isExact_iff width height x).mpr ⟨hintl', h.1, h.2⟩] at hnox
        exact absurd hnox (by simp)
      simp only [findBestLoop, hintl, Bool.false_eq_true, if_false]
      rw [if_neg (fun h => hres ⟨h.1, h.2.1⟩)]
      rw [ih _ _ _ hnotl]
      cases pref with
      | some p => rw [if_neg (by simp)]
      | none =>
        by_cases hpref : x.preferred
        · rw [if_pos ⟨rfl, hpref⟩]
          have hpx : isPrefMode x = true := (isPrefMode_iff x).mpr ⟨hintl', hpref⟩
          rw [List.find?_cons_of_pos _ hpx]
        · rw [if_neg (fun h => hpref h.2)]
          have hpx : isPrefMode x = false := by
            simp [isPrefMode, hintl', hpref]
          rw [List.find?_cons_of_neg _ (by simp [hpx])]

theorem findBestMode_eq_of_best (modes : List DrmModeInfo) (width height : Nat)
    (hz : Rat) (m : DrmModeInfo)
    (hb : (findBestLoop width height hz modes none none none).1 = some m) :
    findBestMode modes width height hz = some m := by
  simp only [findBestMode]
  rw [hb]

theorem findBestMode_eq_of_closest (modes : List DrmModeInfo) (width height : Nat)
    (hz : Rat) (m : DrmModeInfo)
    (hb : (findBestLoop width height hz modes none none none).1 = none)
    (hc : (findBestLoop width height hz modes none none none).2.1 = some m) :
    findBestMode modes width height hz = some m := by
  simp only [findBestMode]
  rw [hb, hc]

theorem findBestMode_isSome_of_ne_nil (modes : List DrmModeInfo)
    (width height : Nat) (hz : Rat) (hne : modes ≠ []) :
    (findBestMode modes width height hz).isSome = true := by
  simp only [findBestMode]
  cases h1 : (findBestLoop width height hz modes none none none).1 with
  | some b => rfl
  | none =>
    cases h2 : (findBestLoop width height hz modes none none none).2.1 with
    | some c => rfl
    | none =>
      cases h3 : (findBestLoop width height hz modes none none none).2.2 with
      | some p => rfl
      | none =>
        clear h1 h2 h3
        cases modes with
        | nil => exact absurd rfl hne
        | cons x tl => rfl

/-- Claim C8: _find_best_mode selects among the connector's non-interlaced
modes with this priority: a first exact width-by-height mode that also
matches a positive requested refresh rate wins immediately; otherwise any
exact width-by-height mode is returned; otherwise some mode with matching
width and vdisplay below the requested height; otherwise the first
non-interlaced preferred mode; otherwise the connector's first mode; and the
result is NULL exactly when the connector has no modes at all. -/
theorem claim_C8_find_best_mode (modes : List DrmModeInfo) (width height : Nat)
    (hz : Rat) :
    (findBestMode modes width height hz = none ↔ modes = []) ∧
    (0 < hz → ∀ m, modes.find? (isExactHz width height hz) = some m →
      findBestMode modes width height hz = some m) ∧
    ((∃ m ∈ modes, isExact width height m = true) →
      ∃ r, findBestMode modes width height hz = some r ∧
        isExact width height r = true) ∧
    ((∀ m ∈ modes, isExact width height m = false) →
      (∃ m ∈ modes, isCloseW width height m = true) →
      ∃ r, findBestMode modes width height hz = some r ∧
        isCloseW width height r = true) ∧
    ((∀ m ∈ modes, isExact width height m = false) →
      (∀ m ∈ modes, isCloseW width height m = false) →
      findBestMode modes width height hz =
        (match modes.find? isPrefMode with
         | some p => some p
         | none => modes.head?)) := by
  refine ⟨?_, ?_, ?_, ?_, ?_⟩
  · constructor
    · intro h
      by_contra hne
      have := findBestMode_isSome_of_ne_nil modes width height hz hne
      rw [h] at this
      exact absurd this (by simp)
    · rintro rfl; rfl
  · intro hhz m hf
    exact findBestMode_eq_of_best modes width height hz m
      (findBestLoop_break width height hz modes none none none m hf hhz)
  · intro hex
    have hsome := findBestLoop_best_isSome width height hz modes none none none
      (Or.inl hex)
    obtain ⟨r, hr⟩ := Option.isSome_iff_exists.mp hsome
    exact ⟨r, findBestMode_eq_of_best modes width height hz r hr,
      findBestLoop_best_exact width height hz modes none none none
        (by simp) r hr⟩
  · intro hno hex
    have hb := findBestLoop_no_exact_best width height hz modes none none none hno
    have hsome := findBestLoop_closest_isSome width height hz modes none none none
      hno (Or.inl hex)
    obtain ⟨r, hr⟩ := Option.isSome_iff_exists.mp hsome
    exact ⟨r, findBestMode_eq_of_closest modes width height hz r hb hr,
      findBestLoop_closest_prop width height hz modes none none none
        (by simp) r hr⟩
  · intro hno hnoc
    have hb := findBestLoop_no_exact_best width height hz modes none none none hno
    have hc := findBestLoop_closest_of_none width height hz modes none none none
      hno hnoc
    have hp := findBestLoop_pref width height hz modes none none none hno
    simp only [findBestMode]
    rw [hb, hc, hp]

theorem claim_C8_witness :
    (0 : Rat) < 60 ∧
    findBestMode
      [⟨1280, 720, 74250, 1650, 750, 0, false, false, true⟩,
       ⟨1920, 1080, 148500, 2200, 1125, 0, false, false, false⟩] 1920 1080 60 =
      some ⟨1920, 1080, 148500, 2200, 1125, 0, false, false, false⟩ := by
  refine ⟨by norm_num, ?_⟩
  have hm : ((148500 * 1000000 / 2200 + 1125 / 2) / 1125 : Nat) = 60000 := by decide
  have hrr : getRefreshRate ⟨1920, 1080, 148500, 2200, 1125, 0, false, false, false⟩ = 60 := by
    unfold getRefreshRate
    simp only [hm]
    norm_num
  have h2 : isExactHz 1920 1080 60
      ⟨1920, 1080, 148500, 2200, 1125, 0, false, false, false⟩ = true := by
    simp [isExactHz, isExact, hrr]
  exact (claim_C8_find_best_mode _ 1920 1080 60).2.1 (by norm_num) _
    (by rw [List.find?_cons_of_neg _ (by simp [isExactHz, isExact]),
        List.find?_cons_of_pos _ h2])
